import Mathlib

/-!
Verification of the certificate-verification blockchain core
(`core.py`, `manager.py`, `smart_contract.py`).

Modelling conventions:
* `hashlib.sha256(json.dumps(fields, sort_keys=True).encode()).hexdigest()`
  is abstracted as a function `Hb : BlockFields → String` over the structured
  five-field record (the JSON serialization with sorted keys is injective on
  the structured values, so hashing the structure is faithful); likewise the
  certificate content hash is `Hc : CertHashInput → String`.  Cryptographic
  collision-freedom, where a claim needs it, appears as an explicit
  hypothesis on the relevant hash values.
* clock readings (`time.time()`, `datetime.now().isoformat()`,
  `datetime.fromtimestamp(t).isoformat()`) are passed in explicitly:
  numeric timestamps are `Nat`, ISO strings are `String`, and the
  timestamp-to-ISO conversion is a parameter `iso : Nat → String`.
* the proof-of-work loop in `Block.mine_block` may not terminate, so it is
  modelled with explicit fuel returning `Option`.
* Python `dict.get(key)` / `dict.get(key, default)` on caller-supplied
  certificate records is modelled with `Option` fields (`none` = key absent)
  and `Option.getD`.
-/

namespace CertChain

set_option maxRecDepth 16384

/-! ## Data model -/

/-- Metadata sub-map of a certificate transaction
(`add_certificate_transaction`, core.py lines 126-130). -/
structure TxMetadata where
  confidence_score : Nat
  file_hash : String
  timestamp : String
deriving DecidableEq, Repr

/-- Certificate-verification transaction payload built by
`add_certificate_transaction` (core.py lines 115-131).  The constant
`"type": "certificate_verification"` entry is not stored (never queried). -/
structure Transaction where
  certificate_id : Option String
  certificate_number : Option String
  certificate_type : Option String
  owner_id : Option String
  owner_name : String
  verification_status : String
  verified_by : Option String
  verified_at : String
  hash : String
  metadata : TxMetadata
deriving DecidableEq, Repr

/-- The `data` dict of a block: either the genesis payload
(`create_genesis_block`, core.py lines 78-83) or a certificate-registration
payload `{"transaction_type": "certificate_registration", "transaction": t}`
(core.py lines 133-136). -/
inductive BlockData where
  | genesis (message : String) (creator : String) (timestamp : String)
  | certReg (txn : Transaction)
deriving DecidableEq, Repr

/-- The five fields serialized by `Block.calculate_hash`
(core.py lines 26-32); the stored `hash` field is not among them. -/
structure BlockFields where
  index : Nat
  timestamp : Nat
  data : BlockData
  previous_hash : String
  nonce : Nat
deriving DecidableEq, Repr

/-- A block (`Block.__init__`, core.py lines 16-22). -/
structure Block where
  index : Nat
  timestamp : Nat
  data : BlockData
  previous_hash : String
  nonce : Nat
  hash : String
deriving DecidableEq, Repr

/-- The five hashed fields of a block. -/
def Block.fields (b : Block) : BlockFields :=
  ⟨b.index, b.timestamp, b.data, b.previous_hash, b.nonce⟩

/-- `Block.calculate_hash` (core.py lines 24-34): digest of the five fields,
with the SHA-256-of-sorted-JSON composite abstracted as `Hb`. -/
def calcHash (Hb : BlockFields → String) (b : Block) : String :=
  Hb b.fields

/-- `Block.__init__` (core.py lines 16-22): nonce starts at 0 and the hash
is computed immediately from the fields. -/
def constructBlock (Hb : BlockFields → String) (index : Nat) (timestamp : Nat)
    (data : BlockData) (previous_hash : String) : Block :=
  { index := index, timestamp := timestamp, data := data,
    previous_hash := previous_hash, nonce := 0,
    hash := Hb ⟨index, timestamp, data, previous_hash, 0⟩ }

/-- `Block.validate` (core.py lines 58-61): recompute the hash and compare
with the stored one. -/
def validateB (Hb : BlockFields → String) (b : Block) : Bool :=
  calcHash Hb b == b.hash

/-- Python string slice `s[:d]`, as a character list. -/
def hashPrefix (s : String) (d : Nat) : List Char :=
  s.toList.take d

/-- The mining target `"0" * difficulty` (core.py line 38). -/
def target (d : Nat) : List Char :=
  List.replicate d '0'

/-- The genesis sentinel `"0" * 64` (core.py line 84). -/
def zeros64 : String :=
  String.mk (target 64)

/-- One iteration of the mining loop (core.py lines 41-42):
increment the nonce, then recompute the hash. -/
def mineStep (Hb : BlockFields → String) (b : Block) : Block :=
  { b with nonce := b.nonce + 1,
           hash := Hb ⟨b.index, b.timestamp, b.data, b.previous_hash, b.nonce + 1⟩ }

/-- `Block.mine_block` (core.py lines 36-44) with explicit fuel: loop while
the first `d` hex characters of the hash differ from the target. -/
def mineBlock (Hb : BlockFields → String) (d : Nat) : Nat → Block → Option Block
  | 0, b => if hashPrefix b.hash d = target d then some b else none
  | fuel + 1, b =>
      if hashPrefix b.hash d = target d then some b
      else mineBlock Hb d fuel (mineStep Hb b)

/-! ## Chain -/

/-- A blockchain (`Blockchain.__init__`, core.py lines 65-71).
`pending_transactions` is initialized and never used by any operation. -/
structure Blockchain where
  chain : List Block
  difficulty : Nat
  pending_transactions : List Transaction
deriving DecidableEq, Repr

/-- Error raised by `get_latest_block` on an empty chain (Python raises
`IndexError` from `self.chain[-1]`; the spec names it `EmptyChainError`). -/
inductive ChainError where
  | emptyChain
deriving DecidableEq, Repr

instance (e1 e2 : Except ChainError Block) : Decidable (e1 = e2) :=
  match e1, e2 with
  | Except.ok x, Except.ok y =>
      if h : x = y then isTrue (h ▸ rfl)
      else isFalse (fun he => h (Except.ok.inj he))
  | Except.ok _, Except.error _ => isFalse (fun he => Except.noConfusion he)
  | Except.error _, Except.ok _ => isFalse (fun he => Except.noConfusion he)
  | Except.error x, Except.error y =>
      if h : x = y then isTrue (h ▸ rfl)
      else isFalse (fun he => h (Except.error.inj he))

/-- `Blockchain.get_latest_block` (core.py lines 90-92): `self.chain[-1]`,
the last element; on an empty chain the lookup fails. -/
def getLatestBlock (c : List Block) : Except ChainError Block :=
  match c.getLast? with
  | some b => Except.ok b
  | none => Except.error ChainError.emptyChain

/-- `Blockchain.__init__` + `create_genesis_block` (core.py lines 65-88):
build the fixed genesis payload at index 0 with the 64-zero sentinel and
mine it at the chain's difficulty. -/
def newBlockchain (Hb : BlockFields → String) (d : Nat) (tGen : Nat)
    (tIso : String) (fuel : Nat) : Option Blockchain :=
  let g := constructBlock Hb 0 tGen
    (BlockData.genesis "Certificate Verification Blockchain" "System" tIso)
    zeros64
  (mineBlock Hb d fuel g).map fun g2 => ⟨[g2], d, []⟩

/-- `Blockchain.add_block` (core.py lines 94-111): construct a block at
index `len(chain)` linked to the latest block's hash, mine it, append it.
`none` models a raised `IndexError` (empty chain) or a mining loop that has
not terminated within the fuel bound.  The `save_to_file` call is an
external persistence effect outside the model. -/
def addBlock (Hb : BlockFields → String) (bc : Blockchain) (data : BlockData)
    (t : Nat) (fuel : Nat) : Option (Blockchain × Block) :=
  match bc.chain.getLast? with
  | none => none
  | some lb =>
      let nb := constructBlock Hb bc.chain.length t data lb.hash
      (mineBlock Hb bc.difficulty fuel nb).map fun b2 =>
        (⟨bc.chain ++ [b2], bc.difficulty, bc.pending_transactions⟩, b2)

/-- Input of `calculate_certificate_hash` (core.py lines 142-147):
certificate number, owner id, file hash and a freshness timestamp. -/
structure CertHashInput where
  certificate_number : Option String
  owner_id : Option String
  file_hash : String
  timestamp : String
deriving DecidableEq, Repr

/-- A caller-supplied certificate record (a Python dict read with `.get`). -/
structure CertificateData where
  certificate_id : Option String := none
  certificate_number : Option String := none
  certificate_type : Option String := none
  owner_id : Option String := none
  owner_name : Option String := none
  verification_status : Option String := none
  verified_by : Option String := none
  confidence_score : Option Nat := none
  file_hash : Option String := none
deriving DecidableEq, Repr

/-- `Blockchain.calculate_certificate_hash` (core.py lines 140-149) with
the `datetime.now().isoformat()` reading passed in as `now`. -/
def calculateCertificateHash (Hc : CertHashInput → String)
    (rec : CertificateData) (now : String) : String :=
  Hc ⟨rec.certificate_number, rec.owner_id, rec.file_hash.getD "", now⟩

/-- The transaction built by `add_certificate_transaction`
(core.py lines 115-131); `tVerifiedAt`, `tHashNow`, `tMetaNow` are the three
`datetime.now().isoformat()` readings in source order. -/
def buildTransaction (Hc : CertHashInput → String) (rec : CertificateData)
    (tVerifiedAt tHashNow tMetaNow : String) : Transaction :=
  { certificate_id := rec.certificate_id,
    certificate_number := rec.certificate_number,
    certificate_type := rec.certificate_type,
    owner_id := rec.owner_id,
    owner_name := rec.owner_name.getD "Unknown",
    verification_status := rec.verification_status.getD "pending",
    verified_by := rec.verified_by,
    verified_at := tVerifiedAt,
    hash := calculateCertificateHash Hc rec tHashNow,
    metadata := ⟨rec.confidence_score.getD 0, rec.file_hash.getD "", tMetaNow⟩ }

/-- `Blockchain.add_certificate_transaction` (core.py lines 113-138):
wrap the transaction in a certificate-registration payload, append a block,
return the new block's hash. -/
def addCertificateTransaction (Hb : BlockFields → String)
    (Hc : CertHashInput → String) (bc : Blockchain) (rec : CertificateData)
    (tVerifiedAt tHashNow tMetaNow : String) (tBlock : Nat) (fuel : Nat) :
    Option (Blockchain × String) :=
  let txn := buildTransaction Hc rec tVerifiedAt tHashNow tMetaNow
  (addBlock Hb bc (BlockData.certReg txn) tBlock fuel).map
    fun p => (p.1, p.2.hash)

/-! ## Chain validation -/

/-- Loop body of `Blockchain.is_chain_valid` (core.py lines 191-203),
returning the failing index it reports, `none` if no check fails.  `prev`
is `chain[i-1]`, the list argument is `chain[i:]`. -/
def chainCheckAux (Hb : BlockFields → String) :
    Block → List Block → Nat → Option Nat
  | _, [], _ => none
  | prev, b :: rest, i =>
      if validateB Hb b = false then some i
      else if b.previous_hash ≠ prev.hash then some i
      else chainCheckAux Hb b rest (i + 1)

/-- First failing index reported by `is_chain_valid`, `none` if the scan
passes.  The loop runs over `range(1, len(chain))`. -/
def chainCheck (Hb : BlockFields → String) : List Block → Option Nat
  | [] => none
  | b :: rest => chainCheckAux Hb b rest 1

/-- `Blockchain.is_chain_valid` (core.py lines 189-205): true iff no
adjacent-pair check fails. -/
def isChainValid (Hb : BlockFields → String) (c : List Block) : Bool :=
  (chainCheck Hb c).isNone

/-! ## Queries -/

/-- Whether a block is a certificate-registration block whose transaction
content hash equals `h` (`verify_certificate` scan condition,
core.py lines 154-157). -/
def blockMatches (h : String) (b : Block) : Bool :=
  match b.data with
  | BlockData.certReg t => t.hash == h
  | _ => false

/-- The transaction of a certificate-registration block
(`block.data.get("transaction")`). -/
def txnOf (b : Block) : Option Transaction :=
  match b.data with
  | BlockData.certReg t => some t
  | _ => none

/-- Result dict of `verify_certificate` (core.py lines 158-169); keys absent
from the not-found dict are `none`. -/
structure VerifyResult where
  exists_ : Bool
  verified : Bool
  verification_status : String
  block_index : Option Nat
  block_hash : Option String
  timestamp : Option Nat
  human_time : Option String
  transaction : Option Transaction
deriving DecidableEq, Repr

/-- The not-found result of `verify_certificate` (core.py line 169). -/
def notFoundResult : VerifyResult :=
  ⟨false, false, "NOT_FOUND", none, none, none, none, none⟩

/-- The found result of `verify_certificate` (core.py lines 158-167). -/
def foundResult (iso : Nat → String) (b : Block) : VerifyResult :=
  ⟨true, true, "VALID", some b.index, some b.hash, some b.timestamp,
    some (iso b.timestamp), txnOf b⟩

/-- `Blockchain.verify_certificate` (core.py lines 151-169): linear scan in
chain order, returning on the first matching transaction. -/
def verifyCertificate (iso : Nat → String) (c : List Block) (h : String) :
    VerifyResult :=
  match c with
  | [] => notFoundResult
  | b :: rest =>
      if blockMatches h b then foundResult iso b
      else verifyCertificate iso rest h

/-- Whether a certificate-registration block's transaction bears the given
certificate id (`get_certificate_history` condition, core.py lines 176-179). -/
def blockHasCertId (id : String) (b : Block) : Bool :=
  match b.data with
  | BlockData.certReg t => t.certificate_id == some id
  | _ => false

/-- One entry of `get_certificate_history` (core.py lines 180-185). -/
structure HistoryEntry where
  block_index : Nat
  timestamp : String
  transaction : Option Transaction
  block_hash : String
deriving DecidableEq, Repr

/-- The history entry built for a matching block. -/
def histEntryOf (iso : Nat → String) (b : Block) : HistoryEntry :=
  ⟨b.index, iso b.timestamp, txnOf b, b.hash⟩

/-- `Blockchain.get_certificate_history` (core.py lines 171-187):
collect all matching certificate-registration blocks in chain order. -/
def getCertificateHistory (iso : Nat → String) (c : List Block) (id : String) :
    List HistoryEntry :=
  match c with
  | [] => []
  | b :: rest =>
      if blockHasCertId id b then
        histEntryOf iso b :: getCertificateHistory iso rest id
      else getCertificateHistory iso rest id

/-- Statistics dict of `get_chain_stats` (core.py lines 207-227).
`latest_block_index` is `len(self.chain) - 1` over Python integers. -/
structure ChainStats where
  total_blocks : Nat
  total_certificates : Nat
  verified_certificates : Nat
  chain_valid : Bool
  difficulty : Nat
  latest_block_hash : Option String
  latest_block_index : Int
deriving DecidableEq, Repr

/-- Whether a block is a certificate-registration block. -/
def isCertRegB (b : Block) : Bool :=
  match b.data with
  | BlockData.certReg _ => true
  | _ => false

/-- Whether a certificate-registration block's transaction carries the
literal verification status `"verified"` (core.py line 216). -/
def hasVerifiedStatus (b : Block) : Bool :=
  match b.data with
  | BlockData.certReg t => t.verification_status == "verified"
  | _ => false

/-- `Blockchain.get_chain_stats` (core.py lines 207-227). -/
def getChainStats (Hb : BlockFields → String) (bc : Blockchain) : ChainStats :=
  { total_blocks := bc.chain.length,
    total_certificates := bc.chain.countP isCertRegB,
    verified_certificates := bc.chain.countP hasVerifiedStatus,
    chain_valid := isChainValid Hb bc.chain,
    difficulty := bc.difficulty,
    latest_block_hash := (bc.chain.getLast?).map Block.hash,
    latest_block_index := (bc.chain.length : Int) - 1 }

/-! ## Manager and smart contract -/

/-- Verdict dict of `CertificateSmartContract.validate_certificate`
(smart_contract.py lines 47-54).  `validation_score` is
`round(passed / total * 100, 2)`; with the fixed four rules this is the
exact natural number `passed * 100 / 4`. -/
structure Verdict where
  valid : Bool
  validation_score : Nat
  rules_passed : List String
  rules_failed : List String
  total_rules : Nat
  timestamp : String
deriving DecidableEq, Repr

/-- Python truthiness of an optional string field as used in
`if certificate_data.get(...):` — `None` and `""` are falsy. -/
def truthy : Option String → Bool
  | none => false
  | some s => s ≠ ""

/-- `CertificateSmartContract.validate_certificate`
(smart_contract.py lines 11-54).  `min_confidence = 60`; the rule strings
`"confidence_score_above_60"` and `"confidence_score_below_60"` come from
the f-strings at lines 39 and 41. -/
def validateCertificate (rec : CertificateData) (now : String) : Verdict :=
  let rules_passed :=
    (if truthy rec.certificate_number then ["certificate_number_present"] else [])
    ++ (if truthy rec.owner_id then ["owner_id_present"] else [])
    ++ (if truthy rec.file_hash then ["file_hash_present"] else [])
    ++ (if 60 ≤ rec.confidence_score.getD 0 then ["confidence_score_above_60"]
        else [])
  let rules_failed :=
    (if truthy rec.certificate_number then [] else ["certificate_number_missing"])
    ++ (if truthy rec.owner_id then [] else ["owner_id_missing"])
    ++ (if truthy rec.file_hash then [] else ["file_hash_missing"])
    ++ (if 60 ≤ rec.confidence_score.getD 0 then []
        else ["confidence_score_below_60"])
  let total := rules_passed.length + rules_failed.length
  { valid := rules_failed.length == 0,
    validation_score := if total = 0 then 0 else rules_passed.length * 100 / total,
    rules_passed := rules_passed,
    rules_failed := rules_failed,
    total_rules := total,
    timestamp := now }

/-- Result dict of `BlockchainManager.register_certificate`
(manager.py lines 43-47, 58-65, 68-71). -/
inductive RegisterResult where
  | policyRejected (error : String) (validation_result : Verdict)
  | registered (block_hash : String) (block_index : Nat)
      (certificate_hash : String) (validation_result : Verdict)
      (timestamp : String)
  | failed (error : String)
deriving DecidableEq, Repr

/-- `BlockchainManager.register_certificate` (manager.py lines 34-71),
returning the result together with the (possibly updated) blockchain.
Clock readings in call order: `tVerdict` (inside `validate_certificate`),
`tVerifiedAt`, `tHashNow`, `tMetaNow` (inside `add_certificate_transaction`),
`tBlock` (`time.time()` in `add_block`), `tHashResp` (the second
`calculate_certificate_hash` call at manager.py line 52 — a fresh
`datetime.now()` reading), `tResp` (the response timestamp).  The `none`
branch of `add_certificate_transaction` models the `except` path, which
leaves the chain unchanged because `get_latest_block` raises before any
append. -/
def registerCertificate (Hb : BlockFields → String) (Hc : CertHashInput → String)
    (bc : Blockchain) (rec : CertificateData)
    (tVerdict tVerifiedAt tHashNow tMetaNow : String) (tBlock : Nat)
    (tHashResp tResp : String) (fuel : Nat) : RegisterResult × Blockchain :=
  let v := validateCertificate rec tVerdict
  if v.valid then
    match addCertificateTransaction Hb Hc bc rec tVerifiedAt tHashNow tMetaNow
        tBlock fuel with
    | some (bc2, blockHash) =>
        (RegisterResult.registered blockHash (bc2.chain.length - 1)
          (calculateCertificateHash Hc rec tHashResp) v tResp, bc2)
    | none => (RegisterResult.failed "error", bc)
  else
    (RegisterResult.policyRejected
      "Certificate failed smart contract validation" v, bc)

/-- One entry of `BlockchainManager.get_recent_transactions`
(manager.py lines 124-131).  The `transaction` dict always carries the
`certificate_number`, `certificate_type` and `verification_status` keys, so
the `dict.get` defaults `"Unknown"` / `"pending"` at lines 127-129 never
fire; the stored values (possibly `None`) are returned as-is. -/
structure TxSummary where
  block_index : Nat
  timestamp : String
  certificate_number : Option String
  certificate_type : Option String
  status : String
  block_hash : String
deriving DecidableEq, Repr

/-- The summary built for a certificate-registration block
(manager.py lines 124-131); `block_hash` is `block.hash[:16] + "..."`. -/
def mkSummary (iso : Nat → String) (b : Block) (t : Transaction) : TxSummary :=
  ⟨b.index, iso b.timestamp, t.certificate_number, t.certificate_type,
    t.verification_status, String.mk (hashPrefix b.hash 16) ++ "..."⟩

/-- Loop of `get_recent_transactions` (manager.py lines 119-136): walk the
given (already reversed) chain, append a summary for each
certificate-registration block, and break once `count >= limit` — the bound
is checked only after appending. -/
def recentGo (iso : Nat → String) (limit : Nat) :
    List Block → Nat → List TxSummary
  | [], _ => []
  | b :: rest, count =>
      match b.data with
      | BlockData.certReg t =>
          if limit ≤ count + 1 then [mkSummary iso b t]
          else mkSummary iso b t :: recentGo iso limit rest (count + 1)
      | _ => recentGo iso limit rest count

/-- `BlockchainManager.get_recent_transactions` (manager.py lines 117-136):
scan in reverse chain order. -/
def getRecentTransactions (iso : Nat → String) (c : List Block)
    (limit : Nat) : List TxSummary :=
  recentGo iso limit c.reverse 0

/-- The optional summary of a block: `some` exactly on
certificate-registration blocks (used to state sublist facts about
`get_recent_transactions`). -/
def summaryOf (iso : Nat → String) (b : Block) : Option TxSummary :=
  match b.data with
  | BlockData.certReg t => some (mkSummary iso b t)
  | _ => none

/-! ## Reachable blockchains

Chains produced by `Blockchain.__init__` followed by any sequence of
successful `add_block` calls — the only mutation entry points in the
source. -/

/-- Reachability by construction and successful appends. -/
inductive Reachable (Hb : BlockFields → String) : Blockchain → Prop where
  | genesis : ∀ d tGen tIso fuel bc,
      newBlockchain Hb d tGen tIso fuel = some bc → Reachable Hb bc
  | step : ∀ bc data t fuel bc2 b,
      Reachable Hb bc → addBlock Hb bc data t fuel = some (bc2, b) →
      Reachable Hb bc2

/-- Predecessor linkage between adjacent blocks
(`current_block.previous_hash == previous_block.hash`). -/
def linkOK (a b : Block) : Prop :=
  b.previous_hash = a.hash

/-- The chain-integrity invariant: every stored hash is recomputable from
the block's fields, and adjacent blocks are linked. -/
def chainWF (Hb : BlockFields → String) (c : List Block) : Prop :=
  (∀ b ∈ c, validateB Hb b = true) ∧ List.Chain' linkOK c

/-- A single mutated stored field: the blocks differ in exactly one of
`index`, `timestamp`, `data`, `previous_hash`, `nonce`, `hash`. -/
def mutatedOneField (b b2 : Block) : Prop :=
  (b2.index ≠ b.index ∧ b2.timestamp = b.timestamp ∧ b2.data = b.data ∧
    b2.previous_hash = b.previous_hash ∧ b2.nonce = b.nonce ∧ b2.hash = b.hash)
  ∨ (b2.index = b.index ∧ b2.timestamp ≠ b.timestamp ∧ b2.data = b.data ∧
    b2.previous_hash = b.previous_hash ∧ b2.nonce = b.nonce ∧ b2.hash = b.hash)
  ∨ (b2.index = b.index ∧ b2.timestamp = b.timestamp ∧ b2.data ≠ b.data ∧
    b2.previous_hash = b.previous_hash ∧ b2.nonce = b.nonce ∧ b2.hash = b.hash)
  ∨ (b2.index = b.index ∧ b2.timestamp = b.timestamp ∧ b2.data = b.data ∧
    b2.previous_hash ≠ b.previous_hash ∧ b2.nonce = b.nonce ∧ b2.hash = b.hash)
  ∨ (b2.index = b.index ∧ b2.timestamp = b.timestamp ∧ b2.data = b.data ∧
    b2.previous_hash = b.previous_hash ∧ b2.nonce ≠ b.nonce ∧ b2.hash = b.hash)
  ∨ (b2.index = b.index ∧ b2.timestamp = b.timestamp ∧ b2.data = b.data ∧
    b2.previous_hash = b.previous_hash ∧ b2.nonce = b.nonce ∧ b2.hash ≠ b.hash)

/-! ## Concrete instantiations for witnesses

A concrete, field-sensitive stand-in for the SHA-256-of-JSON digest, used
only to evaluate witnesses and counterexamples on closed inputs. -/

/-- Encode an optional string. -/
def encOptStr : Option String → String
  | none => "-"
  | some s => "+" ++ s

/-- Encode a transaction as a string. -/
def encTx (t : Transaction) : String :=
  encOptStr t.certificate_id ++ "|" ++ encOptStr t.certificate_number ++ "|"
    ++ encOptStr t.certificate_type ++ "|" ++ encOptStr t.owner_id ++ "|"
    ++ t.owner_name ++ "|" ++ t.verification_status ++ "|"
    ++ encOptStr t.verified_by ++ "|" ++ t.verified_at ++ "|" ++ t.hash ++ "|"
    ++ toString t.metadata.confidence_score ++ "|" ++ t.metadata.file_hash
    ++ "|" ++ t.metadata.timestamp

/-- Encode a block payload as a string. -/
def encData : BlockData → String
  | BlockData.genesis m c t => "G|" ++ m ++ "|" ++ c ++ "|" ++ t
  | BlockData.certReg t => "C|" ++ encTx t

/-- Field-sensitive concrete block digest used in witnesses. -/
def encFields (f : BlockFields) : String :=
  toString f.index ++ "#" ++ toString f.timestamp ++ "#" ++ encData f.data
    ++ "#" ++ f.previous_hash ++ "#" ++ toString f.nonce

/-- Concrete timestamp-to-ISO stand-in used in witnesses. -/
def isoW : Nat → String := fun n => toString n

instance : DecidableRel linkOK :=
  fun a b => inferInstanceAs (Decidable (b.previous_hash = a.hash))

instance (Hb : BlockFields → String) (c : List Block) :
    Decidable (chainWF Hb c) :=
  inferInstanceAs
    (Decidable ((∀ b ∈ c, validateB Hb b = true) ∧ List.Chain' linkOK c))

instance (b b2 : Block) : Decidable (mutatedOneField b b2) := by
  unfold mutatedOneField
  infer_instance

/-! ### Concrete blocks and chains used by witnesses and counterexamples -/

/-- Genesis-shaped block sealed under `encFields` (difficulty irrelevant). -/
def cb0 : Block :=
  constructBlock encFields 0 0
    (BlockData.genesis "Certificate Verification Blockchain" "System" "t0")
    zeros64

/-- A sample certificate-registration transaction (status `"pending"`). -/
def tx1 : Transaction :=
  { certificate_id := some "CID-1", certificate_number := some "C-1",
    certificate_type := none, owner_id := some "U1", owner_name := "Unknown",
    verification_status := "pending", verified_by := none,
    verified_at := "va1", hash := "h1", metadata := ⟨80, "f1", "mt1"⟩ }

/-- Block 1 of the sample chain, linked to `cb0`. -/
def cb1 : Block :=
  constructBlock encFields 1 1 (BlockData.certReg tx1) cb0.hash

/-- A second transaction for the same certificate id. -/
def tx2 : Transaction :=
  { tx1 with hash := "h2", verified_at := "va2" }

/-- Block 2 of the sample chain, linked to `cb1`. -/
def cb2 : Block :=
  constructBlock encFields 2 2 (BlockData.certReg tx2) cb1.hash

/-- `cb0` with only its payload data mutated (hash field untouched). -/
def cb0m : Block :=
  { cb0 with data := BlockData.genesis "tampered message" "System" "t0" }

/-- `cb1` with only its nonce mutated (hash field untouched). -/
def cb1m : Block :=
  { cb1 with nonce := 5 }

/-- A block whose stored hash does not match its recomputed hash. -/
def c4badBlock : Block :=
  { index := 0, timestamp := 0, data := BlockData.genesis "g" "s" "t",
    previous_hash := "p", nonce := 0, hash := "X" }

/-- Constant digest used for the mining witness: always starts with `'0'`. -/
def c4Hb : BlockFields → String := fun _ => "0"

/-- A freshly constructed (hash-consistent) block under `c4Hb`. -/
def c4b : Block :=
  constructBlock c4Hb 0 0 (BlockData.genesis "g" "s" "t") zeros64

/-- Constant digest used for the reachability witness. -/
def c3Hb : BlockFields → String := fun _ => "h"

/-- Genesis block of the concrete reachable chain (difficulty 0). -/
def c3g : Block :=
  constructBlock c3Hb 0 0
    (BlockData.genesis "Certificate Verification Blockchain" "System" "gi")
    zeros64

/-- The concrete blockchain right after construction. -/
def c3bc : Blockchain := ⟨[c3g], 0, []⟩

/-- Payload appended to the concrete reachable chain. -/
def c3data : BlockData := BlockData.certReg tx1

/-- The block produced by the concrete append. -/
def c3b : Block := constructBlock c3Hb 1 7 c3data c3g.hash

/-- The concrete blockchain after one append. -/
def c3bc2 : Blockchain := ⟨[c3g, c3b], 0, []⟩

/-- Block digest for the C2 scenario: constant `"0"`, so mining at
difficulty 1 succeeds immediately. -/
def c2Hb : BlockFields → String := fun _ => "0"

/-- Certificate digest for the C2 scenario: projects the freshness
timestamp, so digests taken at different clock readings differ. -/
def c2Hc : CertHashInput → String := fun f => f.timestamp

/-- The C2 scenario record: passes all four policy rules. -/
def c2rec : CertificateData :=
  { certificate_number := some "C-100", owner_id := some "U1",
    file_hash := some "abc123", confidence_score := some 80 }

/-- The C2 genesis block (difficulty 1, sealed at nonce 0 under `c2Hb`). -/
def c2g : Block :=
  constructBlock c2Hb 0 100
    (BlockData.genesis "Certificate Verification Blockchain" "System" "g")
    zeros64

/-- The fresh C2 chain of difficulty 1. -/
def c2bc0 : Blockchain := ⟨[c2g], 1, []⟩

/-- The C2 registration call: the stored content hash uses clock reading
`"T1"`, the recomputation returned to the caller uses `"T2"`. -/
def c2out : RegisterResult × Blockchain :=
  registerCertificate c2Hb c2Hc c2bc0 c2rec "tv" "tva" "T1" "tm" 200 "T2" "tr" 5

/-- A certificate record that fails policy (missing owner id). -/
def c8rec : CertificateData :=
  { certificate_number := some "C-2", file_hash := some "f",
    confidence_score := some 80 }

/-- Blockchain used by the verify/stats witness. -/
def c10bc : Blockchain := ⟨[cb0, cb1], 2, []⟩

/-! ## Helper lemmas -/

/-- A block validates iff its recomputed hash equals the stored one. -/
theorem validateB_true_iff (Hb : BlockFields → String) (b : Block) :
    validateB Hb b = true ↔ calcHash Hb b = b.hash := by
  simp [validateB]

/-- A block whose recomputed hash differs from the stored one fails
`Block.validate`. -/
theorem validateB_false_of_ne (Hb : BlockFields → String) (b : Block)
    (h : calcHash Hb b ≠ b.hash) : validateB Hb b = false := by
  simpa [validateB] using h

/-- Mining preserves the immutable fields, establishes the difficulty
prefix, and preserves hash consistency (consistency of the input block is
needed only when the loop exits without iterating). -/
theorem mineBlock_spec (Hb : BlockFields → String) (d : Nat) :
    ∀ (fuel : Nat) (b b2 : Block), mineBlock Hb d fuel b = some b2 →
      hashPrefix b2.hash d = target d ∧ b2.index = b.index ∧
      b2.timestamp = b.timestamp ∧ b2.data = b.data ∧
      b2.previous_hash = b.previous_hash ∧
      (b.hash = calcHash Hb b → b2.hash = calcHash Hb b2) := by
  intro fuel
  induction fuel with
  | zero =>
    intro b b2 h
    simp only [mineBlock] at h
    split at h
    · cases h
      exact ⟨by assumption, rfl, rfl, rfl, rfl, fun hc => hc.symm ▸ rfl⟩
    · cases h
  | succ f ih =>
    intro b b2 h
    simp only [mineBlock] at h
    split at h
    · cases h
      exact ⟨by assumption, rfl, rfl, rfl, rfl, fun hc => hc.symm ▸ rfl⟩
    · have hstep := ih (mineStep Hb b) b2 h
      exact ⟨hstep.1, hstep.2.1, hstep.2.2.1, hstep.2.2.2.1, hstep.2.2.2.2.1,
        fun _ => hstep.2.2.2.2.2 rfl⟩

/-- With difficulty 0 the mining loop exits immediately, returning the
block unchanged, for any fuel. -/
theorem mineBlock_zero (Hb : BlockFields → String) (fuel : Nat) (b : Block) :
    mineBlock Hb 0 fuel b = some b := by
  cases fuel <;> simp [mineBlock, hashPrefix, target]

/-- The validation loop reports no failure on a well-formed tail. -/
theorem chainCheckAux_none (Hb : BlockFields → String) :
    ∀ (l : List Block) (prev : Block) (i : Nat),
      (∀ b ∈ l, validateB Hb b = true) → List.Chain' linkOK (prev :: l) →
      chainCheckAux Hb prev l i = none := by
  intro l
  induction l with
  | nil => intro prev i _ _; rfl
  | cons b rest ih =>
    intro prev i hv hc
    have hvb : validateB Hb b = true := hv b (List.mem_cons_self b rest)
    have hlink : b.previous_hash = prev.hash := (List.chain'_cons.mp hc).1
    simp only [chainCheckAux, hvb, Bool.true_eq_false, if_false, hlink,
      ne_eq, not_true_eq_false]
    exact ih b (i + 1) (fun x hx => hv x (List.mem_cons_of_mem b hx))
      (List.chain'_cons.mp hc).2

/-- `is_chain_valid` reports no failure on a well-formed chain. -/
theorem chainCheck_none_of_wf (Hb : BlockFields → String) (c : List Block)
    (h : chainWF Hb c) : chainCheck Hb c = none := by
  cases c with
  | nil => rfl
  | cons b rest =>
    exact chainCheckAux_none Hb rest b 1
      (fun x hx => h.1 x (List.mem_cons_of_mem b hx)) h.2

/-- A well-formed chain passes `is_chain_valid`. -/
theorem isChainValid_of_wf (Hb : BlockFields → String) (c : List Block)
    (h : chainWF Hb c) : isChainValid Hb c = true := by
  unfold isChainValid
  rw [chainCheck_none_of_wf Hb c h]
  rfl

/-- Walking a valid, linked prefix, the loop reports the first failing
block's position. -/
theorem chainCheckAux_fail (Hb : BlockFields → String) (x : Block)
    (suf : List Block) (hx : validateB Hb x = false) :
    ∀ (pre : List Block) (prev : Block) (i : Nat),
      (∀ b ∈ pre, validateB Hb b = true) → List.Chain' linkOK (prev :: pre) →
      chainCheckAux Hb prev (pre ++ x :: suf) i = some (i + pre.length) := by
  intro pre
  induction pre with
  | nil =>
    intro prev i _ _
    simp [chainCheckAux, hx]
  | cons p ps ih =>
    intro prev i hv hc
    have hvp : validateB Hb p = true := hv p (List.mem_cons_self p ps)
    have hlink : p.previous_hash = prev.hash := (List.chain'_cons.mp hc).1
    have hih := ih p (i + 1) (fun b hb => hv b (List.mem_cons_of_mem p hb))
      (List.chain'_cons.mp hc).2
    simp only [List.cons_append, chainCheckAux, hvp, Bool.true_eq_false,
      if_false, hlink, ne_eq, not_true_eq_false, hih]
    have harith : i + (p :: ps).length = i + 1 + ps.length := by
      rw [List.length_cons]
      omega
    rw [harith]
    exact hih

/-- A single-field mutation of a valid block yields a block that fails
`Block.validate`, provided a mutated five-field tuple does not collide
with the original under the digest. -/
theorem validateB_mutated (Hb : BlockFields → String) (bj b2 : Block)
    (hv : validateB Hb bj = true) (hmut : mutatedOneField bj b2)
    (hcoll : bj.fields ≠ b2.fields → Hb bj.fields ≠ Hb b2.fields) :
    validateB Hb b2 = false := by
  have hbj : calcHash Hb bj = bj.hash := (validateB_true_iff Hb bj).mp hv
  apply validateB_false_of_ne
  have main : b2.hash = bj.hash → bj.fields ≠ b2.fields →
      calcHash Hb b2 ≠ b2.hash := by
    intro h6 hfne he
    apply hcoll hfne
    calc Hb bj.fields = calcHash Hb bj := rfl
      _ = bj.hash := hbj
      _ = b2.hash := h6.symm
      _ = calcHash Hb b2 := he.symm
      _ = Hb b2.fields := rfl
  rcases hmut with h | h | h | h | h | h
  · refine main h.2.2.2.2.2 ?_
    intro he
    simp only [Block.fields, BlockFields.mk.injEq] at he
    exact h.1 he.1.symm
  · refine main h.2.2.2.2.2 ?_
    intro he
    simp only [Block.fields, BlockFields.mk.injEq] at he
    exact h.2.1 he.2.1.symm
  · refine main h.2.2.2.2.2 ?_
    intro he
    simp only [Block.fields, BlockFields.mk.injEq] at he
    exact h.2.2.1 he.2.2.1.symm
  · refine main h.2.2.2.2.2 ?_
    intro he
    simp only [Block.fields, BlockFields.mk.injEq] at he
    exact h.2.2.2.1 he.2.2.2.1.symm
  · refine main h.2.2.2.2.2 ?_
    intro he
    simp only [Block.fields, BlockFields.mk.injEq] at he
    exact h.2.2.2.2.1 he.2.2.2.2.symm
  · obtain ⟨h1, h2, h3, h4, h5, hne⟩ := h
    have hfe : b2.fields = bj.fields := by
      simp only [Block.fields, BlockFields.mk.injEq]
      exact ⟨h1, h2, h3, h4, h5⟩
    intro he
    apply hne
    calc b2.hash = calcHash Hb b2 := he.symm
      _ = Hb b2.fields := rfl
      _ = Hb bj.fields := by rw [hfe]
      _ = calcHash Hb bj := rfl
      _ = bj.hash := hbj

/-- Unfolding of a successful `add_block`: the chain grows by exactly the
mined block, which is hash-consistent, difficulty-sealed, and linked to the
previous latest block. -/
theorem addBlock_spec (Hb : BlockFields → String) (bc : Blockchain)
    (data : BlockData) (t fuel : Nat) (bc2 : Blockchain) (b : Block)
    (h : addBlock Hb bc data t fuel = some (bc2, b)) :
    ∃ lb, bc.chain.getLast? = some lb ∧
      bc2.chain = bc.chain ++ [b] ∧ bc2.difficulty = bc.difficulty ∧
      b.previous_hash = lb.hash ∧ b.hash = calcHash Hb b ∧
      hashPrefix b.hash bc.difficulty = target bc.difficulty ∧
      b.index = bc.chain.length ∧ b.timestamp = t ∧ b.data = data := by
  unfold addBlock at h
  rcases hl : bc.chain.getLast? with _ | lb
  · rw [hl] at h
    cases h
  · rw [hl] at h
    simp only [Option.map_eq_some'] at h
    obtain ⟨b3, hmine, heq⟩ := h
    obtain ⟨heq1, heq2⟩ := Prod.mk.injEq .. ▸ heq
    have hspec := mineBlock_spec Hb bc.difficulty fuel _ b3 hmine
    subst heq2
    refine ⟨lb, rfl, heq1.symm ▸ rfl, heq1.symm ▸ rfl, ?_, ?_, hspec.1, ?_, ?_, ?_⟩
    · exact hspec.2.2.2.2.1
    · exact hspec.2.2.2.2.2 rfl
    · exact hspec.2.1
    · exact hspec.2.2.1
    · exact hspec.2.2.2.1

/-- Every reachable blockchain has a non-empty, well-formed chain. -/
theorem reachable_wf (Hb : BlockFields → String) (bc : Blockchain)
    (hr : Reachable Hb bc) : bc.chain ≠ [] ∧ chainWF Hb bc.chain := by
  induction hr with
  | genesis d tGen tIso fuel bc h =>
    unfold newBlockchain at h
    simp only [Option.map_eq_some'] at h
    obtain ⟨g2, hmine, heq⟩ := h
    have hspec := mineBlock_spec Hb d fuel _ g2 hmine
    have hcons : g2.hash = calcHash Hb g2 := hspec.2.2.2.2.2 rfl
    subst heq
    refine ⟨by simp, ?_, ?_⟩
    · intro b hb
      rw [List.mem_singleton] at hb
      subst hb
      exact (validateB_true_iff Hb b).mpr hcons.symm
    · exact List.chain'_singleton g2
  | step bc data t fuel bc2 b hre hadd ih =>
    obtain ⟨lb, hlast, hchain, _, hprev, hcons, _, _, _, _⟩ :=
      addBlock_spec Hb bc data t fuel bc2 b hadd
    constructor
    · rw [hchain]
      simp
    · constructor
      · intro x hx
        rw [hchain] at hx
        rcases List.mem_append.mp hx with hx | hx
        · exact ih.2.1 x hx
        · rw [List.mem_singleton] at hx
          subst hx
          exact (validateB_true_iff Hb x).mpr hcons.symm
      · rw [hchain]
        rw [List.chain'_append]
        refine ⟨ih.2.2, List.chain'_singleton b, ?_⟩
        intro x hx y hy
        rw [List.head?_cons, Option.mem_def, Option.some.injEq] at hy
        rw [Option.mem_def, hlast, Option.some.injEq] at hx
        subst hx
        subst hy
        exact hprev

/-- `verify_certificate` returns the entry of the first matching block in
chain order, or the explicit not-found dict. -/
theorem verify_find (iso : Nat → String) (h : String) :
    ∀ c : List Block, verifyCertificate iso c h =
      (match c.find? (blockMatches h) with
       | some b => foundResult iso b
       | none => notFoundResult) := by
  intro c
  induction c with
  | nil => rfl
  | cons b rest ih =>
    cases hb : blockMatches h b with
    | true => simp [verifyCertificate, hb, List.find?_cons]
    | false => simp [verifyCertificate, hb, List.find?_cons, ih]

/-- The `exists` flag of `verify_certificate` is the existence of a
matching block. -/
theorem verify_exists_any (iso : Nat → String) (h : String) :
    ∀ c : List Block,
      (verifyCertificate iso c h).exists_ = c.any (blockMatches h) := by
  intro c
  induction c with
  | nil => rfl
  | cons b rest ih =>
    cases hb : blockMatches h b with
    | true => simp [verifyCertificate, hb, foundResult]
    | false => simp [verifyCertificate, hb, ih]

/-- `get_certificate_history` is the chain-order filter of matching
certificate-registration blocks, mapped to history entries. -/
theorem history_eq_filter_map (iso : Nat → String) (id : String) :
    ∀ c : List Block, getCertificateHistory iso c id =
      (c.filter (blockHasCertId id)).map (histEntryOf iso) := by
  intro c
  induction c with
  | nil => rfl
  | cons b rest ih =>
    cases hb : blockHasCertId id b with
    | true => simp [getCertificateHistory, hb, List.filter_cons, ih]
    | false => simp [getCertificateHistory, hb, List.filter_cons, ih]

/-- The recent-transactions loop returns a sublist of the summaries of all
certificate-registration blocks, in scan order. -/
theorem recentGo_sublist (iso : Nat → String) (limit : Nat) :
    ∀ (l : List Block) (count : Nat),
      List.Sublist (recentGo iso limit l count)
        (l.filterMap (summaryOf iso)) := by
  intro l
  induction l with
  | nil => intro count; simp [recentGo]
  | cons b rest ih =>
    intro count
    cases hd : b.data with
    | genesis m c t =>
      simp only [recentGo, hd, List.filterMap_cons, summaryOf]
      exact ih count
    | certReg t =>
      simp only [recentGo, hd, List.filterMap_cons, summaryOf]
      by_cases hlim : limit ≤ count + 1
      · simp only [hlim, if_true]
        exact (List.nil_sublist _).cons₂ (mkSummary iso b t)
      · simp only [hlim, if_false]
        exact (ih (count + 1)).cons₂ (mkSummary iso b t)

/-- The recent-transactions loop collects at most `limit - count` entries
once `count < limit`. -/
theorem recentGo_length (iso : Nat → String) (limit : Nat) :
    ∀ (l : List Block) (count : Nat), count < limit →
      (recentGo iso limit l count).length ≤ limit - count := by
  intro l
  induction l with
  | nil => intro count _; simp [recentGo]
  | cons b rest ih =>
    intro count hcl
    cases hd : b.data with
    | genesis m c t =>
      simp only [recentGo, hd]
      exact ih count hcl
    | certReg t =>
      simp only [recentGo, hd]
      by_cases hlim : limit ≤ count + 1
      · simp only [hlim, if_true, List.length_singleton]
        omega
      · simp only [hlim, if_false, List.length_cons]
        have := ih (count + 1) (by omega)
        omega

/-- Summaries of blocks in strictly decreasing index order are in strictly
decreasing `block_index` order. -/
theorem filterMap_summary_pairwise (iso : Nat → String) (l : List Block)
    (h : l.Pairwise (fun a b => b.index < a.index)) :
    (l.filterMap (summaryOf iso)).Pairwise
      (fun s t => t.block_index < s.block_index) := by
  apply List.Pairwise.filterMap (summaryOf iso) ?_ h
  intro a a2 hr s hs t ht
  have hsa : s.block_index = a.index := by
    unfold summaryOf at hs
    split at hs
    · cases hs
      rfl
    · cases hs
  have hta : t.block_index = a2.index := by
    unfold summaryOf at ht
    split at ht
    · cases ht
      rfl
    · cases ht
  rw [hsa, hta]
  exact hr

/-- The `"verified"`-status count of `get_chain_stats` counts exactly the
stored transactions whose status is the literal string `"verified"`. -/
theorem countP_verified_eq (c : List Block) :
    c.countP hasVerifiedStatus =
      ((c.filterMap txnOf).filter
        (fun t => t.verification_status == "verified")).length := by
  induction c with
  | nil => rfl
  | cons b rest ih =>
    cases hd : b.data with
    | genesis m cr t =>
      rw [List.countP_cons]
      simp only [hasVerifiedStatus, txnOf, hd, List.filterMap_cons]
      simpa using ih
    | certReg t =>
      rw [List.countP_cons]
      simp only [hasVerifiedStatus, txnOf, hd, List.filterMap_cons,
        List.filter_cons]
      by_cases hv : t.verification_status = "verified"
      · simp [hv, ih]
      · simp [hv, ih]

/-! ## Claim theorems -/

/-- C1 (counterexample): the claim asserts that mutating any stored field of
ANY non-latest block makes `is_chain_valid` return false at that block's
index.  This fails for the genesis block (index 0, non-latest in a chain of
length 2): the validation loop runs over `range(1, len(chain))` and never
re-validates block 0, so mutating its payload data — even under a
field-sensitive digest that maps the mutated fields to a different value —
leaves `is_chain_valid` true and no failing index reported. -/
theorem c1_counterexample :
    isChainValid encFields [cb0, cb1] = true ∧
    mutatedOneField cb0 cb0m ∧
    encFields cb0m.fields ≠ encFields cb0.fields ∧
    isChainValid encFields [cb0m, cb1] = true ∧
    chainCheck encFields [cb0m, cb1] = none := by
  decide

/-- C1 (amended): for every chain satisfying the integrity invariant and
every non-latest block at index `j ≥ 1` (genesis excluded — the validation
loop never re-validates block 0), mutating any single stored field (index,
timestamp, payload data, previous_hash, nonce, or hash) without resealing —
assuming the mutated five-field tuple does not collide with the original
under the digest — makes `is_chain_valid` return false, failing exactly at
index `j`. -/
theorem c1_tamper_detected (Hb : BlockFields → String) (c : List Block)
    (j : Nat) (bj b2 : Block) (hwf : chainWF Hb c) (hj : 1 ≤ j)
    (hlt : j + 1 < c.length) (hget : c.get? j = some bj)
    (hmut : mutatedOneField bj b2)
    (hcoll : bj.fields ≠ b2.fields → Hb bj.fields ≠ Hb b2.fields) :
    chainCheck Hb (c.set j b2) = some j ∧
    isChainValid Hb (c.set j b2) = false := by
  have hjlen : j < c.length := by omega
  have hmem : bj ∈ c := List.get?_mem hget
  have hx : validateB Hb b2 = false :=
    validateB_mutated Hb bj b2 (hwf.1 bj hmem) hmut hcoll
  have hset : c.set j b2 = c.take j ++ b2 :: c.drop (j + 1) :=
    List.set_eq_take_cons_drop b2 hjlen
  have hlen_take : (c.take j).length = j := by
    rw [List.length_take]
    omega
  obtain ⟨p0, pre, hpre⟩ : ∃ p0 pre, c.take j = p0 :: pre := by
    cases htk : c.take j with
    | nil =>
      exfalso
      rw [htk] at hlen_take
      simp at hlen_take
      omega
    | cons p0 pre => exact ⟨p0, pre, rfl⟩
  have hvpre : ∀ b ∈ pre, validateB Hb b = true := by
    intro b hb
    exact hwf.1 b (List.take_subset j c (hpre ▸ List.mem_cons_of_mem p0 hb))
  have hchain_pre : List.Chain' linkOK (p0 :: pre) := by
    rw [← hpre]
    exact hwf.2.take j
  have hmain : chainCheck Hb (c.set j b2) = some j := by
    rw [hset, hpre, List.cons_append]
    show chainCheckAux Hb p0 (pre ++ b2 :: c.drop (j + 1)) 1 = some j
    rw [chainCheckAux_fail Hb b2 (c.drop (j + 1)) hx pre p0 1 hvpre hchain_pre]
    have : pre.length = j - 1 := by
      rw [hpre, List.length_cons] at hlen_take
      omega
    rw [this]
    congr 1
    omega
  refine ⟨hmain, ?_⟩
  unfold isChainValid
  rw [hmain]
  rfl

/-- C1 (witness): in a concrete well-formed chain of three blocks, mutating
only the nonce of the middle block makes the validation loop fail exactly at
index 1. -/
theorem c1_witness :
    chainCheck encFields ([cb0, cb1, cb2].set 1 cb1m) = some 1 ∧
    isChainValid encFields ([cb0, cb1, cb2].set 1 cb1m) = false :=
  c1_tamper_detected encFields [cb0, cb1, cb2] 1 cb1 cb1m
    ⟨by decide,
      List.chain'_cons.mpr ⟨by decide,
        List.chain'_cons.mpr ⟨by decide, List.chain'_singleton cb2⟩⟩⟩
    (by decide) (by decide) (by decide) (by decide) (by decide)

/-- C2 (code-bug evaluation): on a fresh difficulty-1 chain, registering
the record `{certificate_number: "C-100", owner_id: "U1",
file_hash: "abc123", confidence_score: 80}` passes policy and succeeds with
block index 1 and a block hash starting with the hex character `'0'`, but
the content hash returned to the caller is recomputed at manager.py line 52
with a fresh `datetime.now()` reading ("T2"), while the transaction stored
in the appended block was hashed with the earlier reading ("T1"): verifying
with the returned hash yields `exists: false`, and only the stored hash
verifies. -/
theorem c2_register_verify_mismatch :
    newBlockchain c2Hb 1 100 "g" 5 = some c2bc0 ∧
    (validateCertificate c2rec "tv").valid = true ∧
    c2out.1 = RegisterResult.registered "0" 1 "T2"
      (validateCertificate c2rec "tv") "tr" ∧
    hashPrefix "0" 1 = target 1 ∧
    (c2out.2.chain.filterMap txnOf).map Transaction.hash = ["T1"] ∧
    (verifyCertificate isoW c2out.2.chain "T2").exists_ = false ∧
    (verifyCertificate isoW c2out.2.chain "T1").exists_ = true ∧
    (verifyCertificate isoW c2out.2.chain "T1").block_index = some 1 := by
  decide

/-- C3 (counterexample): the claim asserts that after an append to a chain
of prior length 1 the new latest block's `previous_hash` equals the genesis
sentinel (64 zero characters).  In the code `add_block` always links to the
prior latest block's hash — here the mined genesis hash, which is not the
sentinel. -/
theorem c3_counterexample :
    newBlockchain c3Hb 0 0 "gi" 0 = some c3bc ∧
    c3bc.chain.length = 1 ∧
    addBlock c3Hb c3bc c3data 7 0 = some (c3bc2, c3b) ∧
    getLatestBlock c3bc2.chain = Except.ok c3b ∧
    c3b.previous_hash ≠ zeros64 := by
  decide

/-- C3 (amended): every chain reachable by construction followed by
successful appends satisfies the integrity invariant — every stored hash
recomputes from the block's fields and for every `i ≥ 1`,
`blocks[i].previous_hash = blocks[i-1].hash` — and `is_chain_valid` holds;
moreover after any successful `append`, `is_chain_valid` still holds, the
appended block is the latest, and its `previous_hash` equals the prior
latest block's hash (in all cases, including prior length 1 — not the
genesis sentinel). -/
theorem c3_chain_invariant (Hb : BlockFields → String) (bc : Blockchain)
    (hr : Reachable Hb bc) :
    bc.chain ≠ [] ∧
    (∀ b ∈ bc.chain, validateB Hb b = true) ∧
    (∀ (i : Nat) (h : i < bc.chain.length - 1),
      (bc.chain.get ⟨i + 1, by omega⟩).previous_hash =
        (bc.chain.get ⟨i, by omega⟩).hash) ∧
    isChainValid Hb bc.chain = true ∧
    (∀ data t fuel bc2 b, addBlock Hb bc data t fuel = some (bc2, b) →
      isChainValid Hb bc2.chain = true ∧
      getLatestBlock bc2.chain = Except.ok b ∧
      ∀ lb, bc.chain.getLast? = some lb → b.previous_hash = lb.hash) := by
  obtain ⟨hne, hwf⟩ := reachable_wf Hb bc hr
  refine ⟨hne, hwf.1, ?_, isChainValid_of_wf Hb bc.chain hwf, ?_⟩
  · intro i h
    exact List.chain'_iff_get.mp hwf.2 i h
  · intro data t fuel bc2 b hadd
    obtain ⟨lb, hlast, hchain, _, hprev, _, _, _, _⟩ :=
      addBlock_spec Hb bc data t fuel bc2 b hadd
    have hr2 : Reachable Hb bc2 := Reachable.step bc data t fuel bc2 b hr hadd
    obtain ⟨_, hwf2⟩ := reachable_wf Hb bc2 hr2
    refine ⟨isChainValid_of_wf Hb bc2.chain hwf2, ?_, ?_⟩
    · rw [hchain]
      unfold getLatestBlock
      rw [List.getLast?_concat]
    · intro lb2 hlb2
      rw [hlast] at hlb2
      cases hlb2
      exact hprev

/-- C3 (witness): the concrete reachable chain of difficulty 0 validates,
and after the concrete append the chain still validates and the new block
links to the genesis hash. -/
theorem c3_witness :
    isChainValid c3Hb c3bc.chain = true ∧
    isChainValid c3Hb c3bc2.chain = true ∧
    c3b.previous_hash = c3g.hash := by
  have h := c3_chain_invariant c3Hb c3bc
    (Reachable.genesis 0 0 "gi" 0 c3bc (by decide))
  have h2 := h.2.2.2.2 c3data 7 0 c3bc2 c3b (by decide)
  exact ⟨h.2.2.2.1, h2.1, h2.2.2 c3g (by decide)⟩

/-- C4 (counterexample): the claim asserts `Block.validate()` is true
whenever `mine_block(d)` terminates, for every block.  With difficulty 0
the loop body never runs, so a block whose stored hash was tampered with
(and hence no longer matches its recomputed hash) is returned unchanged and
still fails `validate()`. -/
theorem c4_counterexample :
    mineBlock (fun _ => "h") 0 3 c4badBlock = some c4badBlock ∧
    validateB (fun _ => "h") c4badBlock = false := by
  decide

/-- C4 (amended): whenever `mine_block(d)` terminates, the first `d` hex
characters of the resulting hash are all `'0'`; if additionally the block's
stored hash matched its recomputed hash when mining started (as holds for
every freshly constructed block), the result satisfies `Block.validate()`;
and for `d = 0` mining terminates immediately, returning the block — and in
particular its nonce — unchanged. -/
theorem c4_mine_spec (Hb : BlockFields → String) (d fuel : Nat)
    (b b2 : Block) (hm : mineBlock Hb d fuel b = some b2) :
    hashPrefix b2.hash d = target d ∧
    (b.hash = calcHash Hb b → validateB Hb b2 = true) ∧
    (d = 0 → b2 = b ∧ b2.nonce = b.nonce) ∧
    mineBlock Hb 0 fuel b = some b := by
  have hspec := mineBlock_spec Hb d fuel b b2 hm
  refine ⟨hspec.1, ?_, ?_, mineBlock_zero Hb fuel b⟩
  · intro hc
    exact (validateB_true_iff Hb b2).mpr (hspec.2.2.2.2.2 hc).symm
  · intro hd
    subst hd
    rw [mineBlock_zero Hb fuel b] at hm
    cases hm
    exact ⟨rfl, rfl⟩

/-- C4 (witness): mining the freshly constructed block `c4b` at
difficulty 1 terminates at nonce 0 (its constant digest is `"0"`); the
sealed block has the `'0'` prefix, validates, and difficulty-0 mining
returns it unchanged. -/
theorem c4_witness :
    hashPrefix c4b.hash 1 = target 1 ∧
    validateB c4Hb c4b = true ∧
    mineBlock c4Hb 0 3 c4b = some c4b := by
  have h := c4_mine_spec c4Hb 1 3 c4b c4b (by decide)
  exact ⟨h.1, h.2.1 rfl, h.2.2.2⟩

/-- C5: `verify_certificate` returns the explicit not-found result
(`exists: false`) when no certificate-registration transaction in the chain
carries the queried content hash, and otherwise returns the entry of the
first matching block in chain order (oldest first) — with that block's
index, hash, timestamp and the transaction payload; the `exists` flag is
exactly the existence of a match. -/
theorem c5_verify_first_match (iso : Nat → String) (c : List Block)
    (h : String) :
    verifyCertificate iso c h =
      (match c.find? (blockMatches h) with
       | some b => foundResult iso b
       | none => notFoundResult) ∧
    (verifyCertificate iso c h).exists_ = c.any (blockMatches h) :=
  ⟨verify_find iso h c, verify_exists_any iso h c⟩

/-- C6 (counterexample): the claim asserts `get_recent_transactions(n)`
returns at most `n` summaries for every limit `n`.  For `n = 0` the loop
appends a summary before checking the bound, so a chain with one
certificate-registration block yields one summary, not zero. -/
theorem c6_counterexample :
    ¬ ((getRecentTransactions isoW [cb1] 0).length ≤ 0) := by
  decide

/-- C6 (amended): `get_certificate_history` returns exactly the
certificate-registration entries bearing the queried id (the chain-order
filter), in ascending block-index order; and for every limit `n ≥ 1`,
`get_recent_transactions(n)` returns at most `n` certificate-registration
summaries in descending block-index order (for `n = 0` one summary can
still be returned, because the bound is checked only after appending). -/
theorem c6_history_recent (iso : Nat → String) (c : List Block) (id : String)
    (hsorted : c.Pairwise (fun a b => a.index < b.index)) :
    getCertificateHistory iso c id =
      (c.filter (blockHasCertId id)).map (histEntryOf iso) ∧
    (getCertificateHistory iso c id).Pairwise
      (fun e1 e2 => e1.block_index < e2.block_index) ∧
    (∀ n, 1 ≤ n → (getRecentTransactions iso c n).length ≤ n ∧
      (getRecentTransactions iso c n).Pairwise
        (fun s t => t.block_index < s.block_index)) := by
  refine ⟨history_eq_filter_map iso id c, ?_, ?_⟩
  · rw [history_eq_filter_map iso id c]
    rw [List.pairwise_map]
    exact (hsorted.filter (blockHasCertId id)).imp (fun h => h)
  · intro n hn
    constructor
    · have := recentGo_length iso n c.reverse 0 (by omega)
      simpa [getRecentTransactions] using this
    · have hrev : c.reverse.Pairwise (fun a b => b.index < a.index) :=
        List.pairwise_reverse.mpr hsorted
      exact (filterMap_summary_pairwise iso c.reverse hrev).sublist
        (recentGo_sublist iso n c.reverse 0)

/-- C6 (witness): on the concrete three-block chain the history equation
holds, histories are ascending, and a limit-1 recency query returns at most
one summary in (trivially) descending order. -/
theorem c6_witness :
    getCertificateHistory isoW [cb0, cb1, cb2] "CID-1" =
      ([cb0, cb1, cb2].filter (blockHasCertId "CID-1")).map (histEntryOf isoW) ∧
    (getRecentTransactions isoW [cb0, cb1, cb2] 1).length ≤ 1 := by
  have h := c6_history_recent isoW [cb0, cb1, cb2] "CID-1" (by decide)
  exact ⟨h.1, (h.2.2 1 (by decide)).1⟩

/-- C7: `get_latest_block` returns the last block of a non-empty chain, and
on an empty chain fails with the defined `EmptyChainError` (modelling the
`IndexError` that Python's `self.chain[-1]` raises), not undefined
behavior. -/
theorem c7_latest_block (c : List Block) :
    (c = [] → getLatestBlock c = Except.error ChainError.emptyChain) ∧
    (∀ b, c.getLast? = some b → getLatestBlock c = Except.ok b) := by
  constructor
  · intro h
    subst h
    rfl
  · intro b hb
    unfold getLatestBlock
    rw [hb]

/-- C7 (witness): the empty chain yields the defined error, and a
singleton chain yields its block. -/
theorem c7_witness :
    getLatestBlock [] = Except.error ChainError.emptyChain ∧
    getLatestBlock [cb0] = Except.ok cb0 :=
  ⟨(c7_latest_block []).1 rfl, (c7_latest_block [cb0]).2 cb0 rfl⟩

/-- C8: whenever the smart-contract verdict has `valid = false`,
`register_certificate` returns the policy-rejection result carrying the
full verdict, and the blockchain is returned completely unchanged — no
block is constructed, sealed, or appended. -/
theorem c8_policy_reject (Hb : BlockFields → String)
    (Hc : CertHashInput → String) (bc : Blockchain) (rec : CertificateData)
    (tVerdict tVerifiedAt tHashNow tMetaNow : String) (tBlock : Nat)
    (tHashResp tResp : String) (fuel : Nat)
    (hinvalid : (validateCertificate rec tVerdict).valid = false) :
    registerCertificate Hb Hc bc rec tVerdict tVerifiedAt tHashNow tMetaNow
        tBlock tHashResp tResp fuel =
      (RegisterResult.policyRejected
        "Certificate failed smart contract validation"
        (validateCertificate rec tVerdict), bc) := by
  simp [registerCertificate, hinvalid]

/-- C8 (witness): the concrete record missing its owner id fails policy,
is rejected with the full verdict, and leaves the chain untouched. -/
theorem c8_witness :
    registerCertificate (fun _ => "h") (fun _ => "h") ⟨[], 2, []⟩ c8rec
        "tv" "a" "b" "c" 0 "d" "e" 0 =
      (RegisterResult.policyRejected
        "Certificate failed smart contract validation"
        (validateCertificate c8rec "tv"), ⟨[], 2, []⟩) :=
  c8_policy_reject (fun _ => "h") (fun _ => "h") ⟨[], 2, []⟩ c8rec
    "tv" "a" "b" "c" 0 "d" "e" 0 (by decide)

/-- C9: `calculate_hash` is a pure function of exactly the five fields
(index, timestamp, data, previous_hash, nonce): two blocks agreeing on
those fields produce equal digests (so repeated calls with no field change
return the same digest, and the digest after any field change is determined
by the new field values alone), and the stored `hash` field has no
influence on the recomputation. -/
theorem c9_hash_deterministic (Hb : BlockFields → String) (b b2 : Block) :
    (b.index = b2.index → b.timestamp = b2.timestamp → b.data = b2.data →
      b.previous_hash = b2.previous_hash → b.nonce = b2.nonce →
      calcHash Hb b = calcHash Hb b2) ∧
    (∀ h2, calcHash Hb { b with hash := h2 } = calcHash Hb b) := by
  constructor
  · intro h1 h2 h3 h4 h5
    unfold calcHash Block.fields
    rw [h1, h2, h3, h4, h5]
  · intro h2
    rfl

/-- C9 (witness): two concrete blocks agreeing on the five fields but with
different stored hashes have equal digests, and overwriting the stored
hash leaves the recomputed digest unchanged. -/
theorem c9_witness :
    calcHash encFields { cb0 with hash := "zz" } = calcHash encFields cb0 ∧
    calcHash encFields { cb0 with hash := "ww" } = calcHash encFields cb0 :=
  ⟨(c9_hash_deterministic encFields { cb0 with hash := "zz" } cb0).1
      rfl rfl rfl rfl rfl,
    (c9_hash_deterministic encFields cb0 cb0).2 "ww"⟩

/-- C10: whenever `verify_certificate` finds a matching transaction, the
result has `verified = true` and `verification_status = "VALID"` regardless
of the transaction's stored status (even `"pending"`); its `exists` and
`verified` flags are always equal, while `get_chain_stats` counts as
verified only transactions whose stored status is the literal string
`"verified"`. -/
theorem c10_verify_semantics (iso : Nat → String) (Hb : BlockFields → String)
    (bc : Blockchain) (h : String) :
    ((verifyCertificate iso bc.chain h).exists_ =
      (verifyCertificate iso bc.chain h).verified) ∧
    (∀ b, bc.chain.find? (blockMatches h) = some b →
      verifyCertificate iso bc.chain h = foundResult iso b ∧
      (verifyCertificate iso bc.chain h).verified = true ∧
      (verifyCertificate iso bc.chain h).verification_status = "VALID") ∧
    (getChainStats Hb bc).verified_certificates =
      ((bc.chain.filterMap txnOf).filter
        (fun t => t.verification_status == "verified")).length := by
  refine ⟨?_, ?_, countP_verified_eq bc.chain⟩
  · rw [verify_find iso h bc.chain]
    cases bc.chain.find? (blockMatches h) with
    | none => rfl
    | some b => rfl
  · intro b hb
    rw [verify_find iso h bc.chain, hb]
    exact ⟨rfl, rfl, rfl⟩

/-- C10 (witness): in the concrete chain the transaction stored with status
`"pending"` is found by its content hash, and the result still reports
`verified = true` and status `"VALID"`. -/
theorem c10_witness :
    verifyCertificate isoW c10bc.chain "h1" = foundResult isoW cb1 ∧
    (verifyCertificate isoW c10bc.chain "h1").verified = true ∧
    (verifyCertificate isoW c10bc.chain "h1").verification_status = "VALID" :=
  (c10_verify_semantics isoW encFields c10bc "h1").2.1 cb1 (by decide)

end CertChain
